import Mathlib

/-!
Shallow embedding of the passphrase2pgp `openpgp` signing-key core
(`SignKey`: seeding, packet construction, Key-ID, S2K secret-key
protection, loading, the signature engine, and the clearsign line
transform).  Bytes are modelled as `Nat` (with `% 256` wherever the Go
code truncates through the `byte` type), byte strings as `List Nat`,
and the external cryptographic primitives (SHA-1, SHA-256, Ed25519,
AES-CFB), which live in Go's standard library rather than in this
repository, as fields of an explicit `Crypto` context, so every
theorem about packet layout holds for all instantiations of those
primitives.
-/

namespace P2P

set_option maxRecDepth 65536

/-- Big-endian 16-bit encoding (`binary.BigEndian.PutUint16`). -/
def be16 (n : Nat) : List Nat := [n / 256 % 256, n % 256]

/-- Big-endian 32-bit encoding (`marshal32be` / `PutUint32`). -/
def marshal32be (n : Nat) : List Nat :=
  [n / 16777216 % 256, n / 65536 % 256, n / 256 % 256, n % 256]

/-- Go's `uint32(x)` conversion of an `int64`: value modulo 2^32. -/
def u32 (i : Int) : Nat := (i % 4294967296).toNat

/-- Big-endian 32-bit read (`binary.BigEndian.Uint32`) from the first
four elements of a list. -/
def beRead32 (l : List Nat) : Nat :=
  l.headD 0 * 16777216 + l.tail.headD 0 * 65536 +
    l.tail.tail.headD 0 * 256 + l.tail.tail.tail.headD 0

/-- Drop leading zero bytes of a big-endian integer. -/
def stripLeadZeros : List Nat → List Nat
  | [] => []
  | b :: rest => if b = 0 then stripLeadZeros rest else b :: rest

/-- Fuel-bounded binary length, structurally recursive so that it
reduces inside the kernel. -/
def bitLenAux : Nat → Nat → Nat
  | 0, _ => 0
  | fuel + 1, n => if n = 0 then 0 else bitLenAux fuel (n / 2) + 1

/-- The bit length of a natural number (0 for 0). -/
def bitLen (n : Nat) : Nat := bitLenAux n n

/-- Modelled from the spec: the repository's `mpi` encoder is not in
the provided sources.  Per §4.1 it emits a 2-byte bit-length prefix
(the bit length of the value with leading zero bits stripped) followed
by the minimal big-endian byte sequence. -/
def mpi (b : List Nat) : List Nat :=
  let s := stripLeadZeros b
  let bits := match s with
    | [] => 0
    | hd :: tl => tl.length * 8 + bitLen hd
  be16 bits ++ s

/-- Modelled from the spec: the repository's `mpiDecode` is not in the
provided sources.  Per §4.1 decoding reads the 2-byte bit-length
prefix, consumes exactly `ceil(bitlen/8)` bytes after it and returns
the remaining tail; a declared length that disagrees with the expected
byte count or the available bytes fails (callers observe a `nil`
value, modelled as `none`, with the buffer returned unconsumed). -/
def mpiDecode (buf : List Nat) (n : Nat) : Option (List Nat) × List Nat :=
  if buf.length < 2 then (none, buf)
  else
    let bits := buf.headD 0 * 256 + buf.tail.headD 0
    let count := (bits + 7) / 8
    if count = n ∧ 2 + count ≤ buf.length then
      (some ((buf.drop 2).take count), buf.drop (2 + count))
    else (none, buf)

/-- Modelled from the spec: the repository's `checksum` is not in the
provided sources.  Per §4.1 it is the 16-bit sum of the bytes
(mod 2^16). -/
def checksum (l : List Nat) : Nat := (l.foldl (· + ·) 0) % 65536

/-- External cryptographic primitives used by the core.  They come
from Go's standard library / golang.org/x/crypto, not from this
repository, so they are abstract parameters of the embedding. -/
structure Crypto where
  sha1 : List Nat → List Nat
  sha256 : List Nat → List Nat
  newKeyFromSeed : List Nat → List Nat
  edSign : List Nat → List Nat → List Nat
  cfbEnc : List Nat → List Nat → List Nat → List Nat
  cfbDec : List Nat → List Nat → List Nat → List Nat

/-- `SignKey`: Ed25519 private key bytes (seed ++ public key, 64
bytes), creation timestamp (`int64`), and the lazy packet cache. -/
structure SignKey where
  key : List Nat
  created : Int
  packet : Option (List Nat)

/-- `SignKey.Seed`: derive the keypair from a 32-byte seed and drop
the cached packet. -/
def SignKey.seedFrom (c : Crypto) (seed : List Nat) (created : Int) : SignKey :=
  { key := c.newKeyFromSeed seed, created := created, packet := none }

/-- `SignKey.Seckey` (the first 32 bytes of the private key). -/
def SignKey.seckey (k : SignKey) : List Nat := k.key.take 32

/-- `SignKey.Pubkey` (the last 32 bytes of the private key). -/
def SignKey.pubkey (k : SignKey) : List Nat := k.key.drop 32

/-- The OID bytes for Ed25519 (1.3.6.1.4.1.11591.15.1). -/
def oid : List Nat := [0x2b, 0x06, 0x01, 0x04, 0x01, 0xda, 0x47, 0x0f, 0x01]

/-- The first 54 bytes of the secret-key packet laid out by
`SignKey.Packet`: header byte, length placeholder, version, creation
date, algorithm, OID length, OID, public-key bit length (263), the
0x40 MPI prefix, the 32-byte public key, and the protection-mode
byte 0 (unencrypted). -/
def packetHead (k : SignKey) : List Nat :=
  [0xc5, 0, 0x04] ++ marshal32be (u32 k.created) ++ [22, 9] ++ oid ++
    be16 263 ++ [0x40] ++ k.pubkey ++ [0]

/-- `SignKey.Packet` without the cache: append the MPI-encoded secret
scalar and its 16-bit checksum, then patch the length byte. -/
def buildPacket (k : SignKey) : List Nat :=
  let mpikey := mpi k.seckey
  let packet := packetHead k ++ mpikey ++ be16 (checksum mpikey)
  packet.set 1 ((packet.length - 2) % 256)

/-- The bytes returned by `SignKey.Packet`: the cached packet when
present, the freshly built one otherwise. -/
def SignKey.packetBytes (k : SignKey) : List Nat :=
  match k.packet with
  | some p => p
  | none => buildPacket k

/-- The cache fill performed by `SignKey.Packet` (`k.packet = packet`). -/
def SignKey.packetFill (k : SignKey) : SignKey :=
  { k with packet := some k.packetBytes }

/-- `SignKey.KeyID`: SHA-1 over `{0x99, 0, 51}` and bytes 2..52 of the
secret-key packet (the public-key portion). -/
def keyID (c : Crypto) (k : SignKey) : List Nat :=
  c.sha1 ([0x99, 0, 51] ++ ((k.packetBytes.drop 2).take 51))

/-- `decodeS2K`: the legacy encoded-count convention
`(16 + (c & 15)) << ((c >> 4) + 6)` for a count byte `c < 256`. -/
def decodeS2K (c : Nat) : Nat := (16 + c % 16) * 2 ^ (c / 16 + 6)

/-- Go's `copy(dst, src)`: overwrite the first
`min (length dst) (length src)` elements of `dst` with `src`. -/
def copyInto (dst src : List Nat) : List Nat :=
  src.take dst.length ++ dst.drop (min dst.length src.length)

/-- The `full` buffer of `s2k`: an `8 + len passphrase` byte zeroed
buffer, `copy(full[0:], salt)`, then `copy(full[8:], passphrase)`. -/
def s2kFull (passphrase salt : List Nat) : List Nat :=
  let f0 := List.replicate (8 + passphrase.length) 0
  let f1 := copyInto f0 salt
  f1.take 8 ++ copyInto (f1.drop 8) passphrase

/-- `s2k`: hash `iterations` whole copies of `full` and one partial
copy of the remaining `count - iterations * len full` bytes. -/
def s2k (c : Crypto) (passphrase salt : List Nat) (count : Nat) : List Nat :=
  let full := s2kFull passphrase salt
  let iterations := count / full.length
  c.sha256 (List.flatten (List.replicate iterations full) ++
    full.take (count - iterations * full.length))

/-! ## The signature engine (`SignKey.sign`) -/

/-- A signature subpacket: a type byte and its data. -/
structure Subpacket where
  type : Nat
  data : List Nat
deriving DecidableEq, Repr

/-- One step of the subpacket serialization loop: append the length
byte (`byte(len(data)+1)`), the type byte, and the data. -/
def serOne (acc : List Nat) (sp : Subpacket) : List Nat :=
  acc ++ [(sp.data.length + 1) % 256, sp.type] ++ sp.data

/-- Serialization of a subpacket list. -/
def serSubpackets (sps : List Subpacket) : List Nat :=
  sps.foldl serOne []

/-- `sigInput`: the bytes already written to the running hash, the
signature type byte, the timestamp, and the class-specific
subpackets. -/
structure SigInput where
  hWritten : List Nat
  sigtype : Nat
  whenT : Int
  subpackets : List Subpacket

/-- The full subpacket list assembled by `sign`: Signature Creation
Time (type 2), Issuer (type 16, bytes 12..19 of the Key-ID), then the
caller's subpackets in order. -/
def signSubpackets (c : Crypto) (k : SignKey) (inp : SigInput) : List Subpacket :=
  ⟨2, marshal32be (u32 inp.whenT)⟩ ::
    ⟨16, ((keyID c k).drop 12).take 8⟩ :: inp.subpackets

/-- The first portion of the signature packet, before the length
bytes are patched: fixed header `{0xc2, 0, 4, sigtype, 22, 8, 0, 0}`
followed by the serialized subpackets. -/
def signPacketA (c : Crypto) (k : SignKey) (inp : SigInput) : List Nat :=
  (signSubpackets c k inp).foldl serOne
    [0xc2, 0, 0x04, inp.sigtype, 22, 8, 0, 0]

/-- The hashed-subpacket length as the code computes it:
`uint16(len(packet) - 8)`. -/
def signHashedLen (c : Crypto) (k : SignKey) (inp : SigInput) : Nat :=
  ((signPacketA c k inp).length - 8) % 65536

/-- The packet with the 16-bit hashed length patched into bytes 6..7. -/
def signPacketB (c : Crypto) (k : SignKey) (inp : SigInput) : List Nat :=
  let hl := signHashedLen c k inp
  ((signPacketA c k inp).set 6 (hl / 256 % 256)).set 7 (hl % 256)

/-- The hashed region `packet[2 : hashedLen+8]` fed to the hash
between the caller's bytes and the final trailer. -/
def signHashedRegion (c : Crypto) (k : SignKey) (inp : SigInput) : List Nat :=
  ((signPacketB c k inp).drop 2).take (signHashedLen c k inp + 6)

/-- Everything written into the digest by a signing operation: the
caller's bytes, the hashed region, and the final trailer
`{4, 0xff, 0, 0, 0, byte(hashedLen + 6)}`. -/
def signHashInput (c : Crypto) (k : SignKey) (inp : SigInput) : List Nat :=
  inp.hWritten ++ signHashedRegion c k inp ++
    [4, 0xff, 0, 0, 0, (signHashedLen c k inp + 6) % 256]

/-- `SignKey.sign`: assemble the packet, hash, sign, append the hash
preview and the MPI-encoded signature halves, and patch the outer
length byte. -/
def sign (c : Crypto) (k : SignKey) (inp : SigInput) : List Nat :=
  let pktB := signPacketB c k inp
  let pktC := pktB ++ [0, 0]
  let sigsum := c.sha256 (signHashInput c k inp)
  let sig := c.edSign k.key sigsum
  let pktD := pktC ++ sigsum.take 2 ++ mpi (sig.take 32) ++ mpi (sig.drop 32)
  pktD.set 1 ((pktD.length - 2) % 256)

/-- The Issuer Fingerprint subpacket (type 33): version byte 4
followed by the Key-ID. -/
def fingerprintSub (c : Crypto) (k : SignKey) : Subpacket :=
  ⟨33, 4 :: keyID c k⟩

/-- `SignKey.Sign` on an already-read document: hash the raw document
bytes, subpackets = issuer fingerprint, signature type 0, timestamp
from the clock (`time.Now().Unix()`, passed explicitly here). -/
def SignKey.signDoc (c : Crypto) (k : SignKey) (now : Int) (doc : List Nat) : List Nat :=
  sign c k ⟨doc, 0x00, now, [fingerprintSub c k]⟩

/-! ## Loading a secret-key packet (`SignKey.Load`)

The Go code wraps the body interpretation in a `recover` that turns
any out-of-range panic into `InvalidPacketErr`; the embedding makes
every such access an explicit bounds check returning that same
error. -/

/-- The package's error values: `InvalidPacketErr` (malformed packet,
also produced by the panic recovery), `UnsupportedPacketErr`, and
`DecryptKeyErr`. -/
inductive PgpError where
  | invalidPacket
  | unsupportedPacket
  | decryptKey
deriving DecidableEq, Repr

/-- An OpenPGP packet as handed to `Load`: tag plus body bytes. -/
structure GoPacket where
  tag : Nat
  body : List Nat

/-- The static bytes checked at the top of `Load`:
`body[0] == 0x04 && body[5:19] == {22, 9, OID, 0x01, 0x07, 0x40}`
(checked only when the corresponding accesses are in range). -/
def loadMagic : List Nat := [22, 9] ++ oid ++ [0x01, 0x07, 0x40]

/-- The result of the seed-recovery phase of `Load` (everything up to
but not including `k.Seed(seckey)`): the recovered secret scalar (Go's
`seckey` variable, still `nil` for an unrecognized protection-mode
byte), the packet's stated public key, and the creation date. -/
structure LoadCore where
  seckey : Option (List Nat)
  pubkey : List Nat
  created : Int
deriving DecidableEq, Repr

/-- The decryption pipeline of the encrypted branch of `Load`:
derive the S2K key from the salt `body[55:63]` and the count byte
`body[63]`, and CFB-decrypt `body[80:]` under the IV `body[64:80]`. -/
def loadDecrypted (c : Crypto) (body passphrase : List Nat) : List Nat :=
  c.cfbDec
    (s2k c passphrase ((body.drop 55).take 8) (decodeS2K (body.getD 63 0)))
    ((body.drop 64).take 16) (body.drop 80)

/-- The encrypted branch of `Load` (protection byte 254), after the
non-nil passphrase check: validate the algorithm bytes (the length
tests mirror the successive index and slice accesses, whose
out-of-range panics become `invalidPacket`), decrypt, MPI-decode the
scalar, and check the SHA-1 integrity digest in constant time. -/
def loadEncrypted (c : Crypto) (body passphrase : List Nat) :
    Except PgpError (Option (List Nat)) :=
  if body.length < 53 then .error .invalidPacket
  else if body.getD 52 0 ≠ 9 then .error .unsupportedPacket
  else if body.length < 54 then .error .invalidPacket
  else if body.getD 53 0 ≠ 3 then .error .unsupportedPacket
  else if body.length < 55 then .error .invalidPacket
  else if body.getD 54 0 ≠ 8 then .error .unsupportedPacket
  else if body.length < 63 then .error .invalidPacket
  else if body.length < 64 then .error .invalidPacket
  else if body.length < 80 then .error .invalidPacket
  else
    match mpiDecode (loadDecrypted c body passphrase) 32 with
    | (none, _) => .error .decryptKey
    | (some seckey, check) =>
        if c.sha1 (mpi seckey) ≠ check then .error .decryptKey
        else .ok (some seckey)

/-- The seed-recovery phase of `Load` for a tag-5 body: static-byte
validation, branch on the protection-mode byte, and recovery of the
secret scalar.  Out-of-range accesses yield `invalidPacket` exactly
where the Go code's slice/index operations would panic. -/
def loadCore (c : Crypto) (body : List Nat) (passphrase : Option (List Nat)) :
    Except PgpError LoadCore :=
  if body.length < 1 then .error .invalidPacket
  else if body.getD 0 0 ≠ 0x04 then .error .unsupportedPacket
  else if body.length < 19 then .error .invalidPacket
  else if (body.drop 5).take 14 ≠ loadMagic then .error .unsupportedPacket
  else if body.length < 51 then .error .invalidPacket
  else
    let pubkey := (body.drop 19).take 32
    let created : Int := Int.ofNat (beRead32 (body.drop 1))
    if body.length < 52 then .error .invalidPacket
    else if body.getD 51 0 = 0 then
      match mpiDecode (body.drop 52) 32 with
      | (seckey, tail) =>
          if tail.length ≠ 2 then .error .invalidPacket
          else .ok ⟨seckey, pubkey, created⟩
    else if body.getD 51 0 = 254 then
      match passphrase with
      | none => .error .decryptKey
      | some pw =>
          match loadEncrypted c body pw with
          | .error e => .error e
          | .ok seckey => .ok ⟨seckey, pubkey, created⟩
    else .ok ⟨none, pubkey, created⟩

/-- `SignKey.Load`: tag dispatch, seed recovery, keypair
reconstruction (`k.Seed`, which panics — here: `invalidPacket` — on a
seed that is not 32 bytes, including Go's `nil`), and the final
public-key comparison. -/
def load (c : Crypto) (p : GoPacket) (passphrase : Option (List Nat)) :
    Except PgpError SignKey :=
  if p.tag = 5 then
    match loadCore c p.body passphrase with
    | .error e => .error e
    | .ok out =>
        match out.seckey with
        | none => .error .invalidPacket
        | some sk =>
            if sk.length ≠ 32 then .error .invalidPacket
            else
              let k := SignKey.seedFrom c sk out.created
              if k.pubkey ≠ out.pubkey then .error .invalidPacket
              else .ok k
  else if p.tag = 6 then .error .unsupportedPacket
  else .error .invalidPacket

/-! ## `SignKey.EncPacket` and the packet cache

`EncPacket` starts from `k.Packet()[:57]`, a slice sharing the cached
packet's backing array, and mutates it in place before the final
append outgrows the capacity (90) and reallocates.  A small model of
Go slices (backing array, length, in-place-growth rule) makes this
aliasing explicit so the effect on the cache is derived, not
asserted. -/

/-- A Go slice with offset 0: backing array contents and length; the
capacity is the backing array's length. -/
structure GoSlice where
  arr : List Nat
  len : Nat

/-- Indexed store into a slice (`s[i] = v`). -/
def goSet (s : GoSlice) (i v : Nat) : GoSlice := ⟨s.arr.set i v, s.len⟩

/-- `append(s, xs...)`: grow in place while the backing array has
capacity, otherwise reallocate. -/
def goAppend (s : GoSlice) (xs : List Nat) : GoSlice :=
  if s.len + xs.length ≤ s.arr.length then
    ⟨s.arr.take s.len ++ xs ++ s.arr.drop (s.len + xs.length), s.len + xs.length⟩
  else ⟨s.arr.take s.len ++ xs, s.len + xs.length⟩

/-- Slice state threaded through `EncPacket` together with the cached
packet's backing array: `orig` is the current contents of that
original allocation and `aliased` records whether the working slice
still points into it. -/
structure SliceSt where
  sl : GoSlice
  orig : List Nat
  aliased : Bool

/-- A store through the working slice, visible through the original
backing array while still aliased. -/
def stSet (st : SliceSt) (i v : Nat) : SliceSt :=
  let sl := goSet st.sl i v
  ⟨sl, if st.aliased then sl.arr else st.orig, st.aliased⟩

/-- An append through the working slice: an in-place growth mutates
the original backing array; a reallocation detaches from it. -/
def stAppend (st : SliceSt) (xs : List Nat) : SliceSt :=
  let fits := decide (st.sl.len + xs.length ≤ st.sl.arr.length)
  let sl := goAppend st.sl xs
  ⟨sl, if st.aliased && fits then sl.arr else st.orig, st.aliased && fits⟩

/-- The encrypted secret portion prepared by `EncPacket` before the
packet rewrite: the MPI-encoded scalar with its SHA-1 digest
appended, CFB-encrypted. -/
def encSeckey (c : Crypto) (k : SignKey) (key iv : List Nat) : List Nat :=
  let mpikey := mpi k.seckey
  c.cfbEnc key iv (mpikey ++ c.sha1 mpikey)

/-- The slice-operation chain of `EncPacket`, starting from
`packet := k.Packet()[:57]` over the cached packet's backing array
(capacity 90): four stores rewriting the protection headers, then the
appends of salt, encoded count, IV and encrypted secret portion, then
the length-byte store. -/
def encSlices (cached salt iv seckey : List Nat) : SliceSt :=
  let backing := cached ++ List.replicate (90 - cached.length) 0
  let st0 : SliceSt := ⟨⟨backing, 57⟩, backing, true⟩
  let st1 := stSet st0 53 254
  let st2 := stSet st1 54 9
  let st3 := stSet st2 55 3
  let st4 := stSet st3 56 8
  let st5 := stAppend st4 salt
  let st6 := stAppend st5 [0xff]
  let st7 := stAppend st6 iv
  let st8 := stAppend st7 seckey
  stSet st8 1 ((st8.sl.len - 2) % 256)

/-- `SignKey.EncPacket`: rewrite the secret portion of the cached
packet into the passphrase-protected form.  The 8-byte salt and
16-byte IV are the random bytes (exposed as parameters).  Returns the
protected packet and the key as `EncPacket` leaves it (its `Packet()`
call populates the cache; the in-place slice writes then mutate that
cached array, whose final contents are `st.orig`). -/
def encPacket (c : Crypto) (k : SignKey) (salt iv passphrase : List Nat) :
    List Nat × SignKey :=
  let key := s2k c passphrase salt (decodeS2K 0xff)
  let seckey := encSeckey c k key iv
  let kf := k.packetFill
  let cached := k.packetBytes
  let st := encSlices cached salt iv seckey
  (st.sl.arr.take st.sl.len,
    { kf with packet := some (st.orig.take cached.length) })

/-! ## The clearsign line transform -/

/-- Trailing space/tab removal performed on each scanned line. -/
def trimRight (l : List Nat) : List Nat :=
  ((l.reverse).dropWhile (fun b => b = 0x20 || b = 0x09)).reverse

/-- The bytes a list of input lines contributes to the clearsign
digest: trimmed lines joined by CRLF. -/
def clearsignDigestInput (lines : List (List Nat)) : List Nat :=
  (lines.foldl
    (fun acc line =>
      (acc.1 ++ (if acc.2 then [] else [0x0d, 0x0a]) ++ trimRight line, false))
    ([], true)).1

/-- The dash-escaped passthrough bytes for one trimmed line: a
`"- "` prefix when the line starts with a dash, then the line and a
single linefeed. -/
def dashEscape (line : List Nat) : List Nat :=
  (if line.headD 0 = 0x2d ∧ line ≠ [] then [0x2d, 0x20] else []) ++
    line ++ [0x0a]

/-- The passthrough body emitted for a list of input lines. -/
def clearsignBody (lines : List (List Nat)) : List Nat :=
  lines.foldl (fun acc line => acc ++ dashEscape (trimRight line)) []

/-! ## A concrete `Crypto` instantiation

Used only to evaluate the layout theorems at concrete inputs (the
theorems themselves hold for every instantiation).  The functions are
simple stand-ins with the right output lengths, not the real
primitives. -/

/-- A concrete crypto context for witnesses. -/
def testCrypto : Crypto where
  sha1 l := (List.range 20).map fun i => (l.length + l.foldl (· + ·) 0 + i) % 256
  sha256 l := (List.range 32).map fun i => (2 * l.length + l.foldl (· + ·) 0 + 3 * i) % 256
  newKeyFromSeed s := s ++ s
  edSign key msg :=
    (List.range 64).map fun i => (key.foldl (· + ·) 0 + msg.foldl (· + ·) 0 + i) % 256
  cfbEnc _ _ data := data
  cfbDec _ _ data := data

/-- A concrete signing key: seed of 32 one-bytes, created at 0. -/
def testKey : SignKey := SignKey.seedFrom testCrypto (List.replicate 32 1) 0

/-- A `SignKey` with its packet cache optionally populated; used to
state that results do not depend on the cache state. -/
def SignKey.fillIf (b : Bool) (k : SignKey) : SignKey :=
  if b then k.packetFill else k

/-! ## Helper lemmas -/

lemma packetBytes_packetFill (k : SignKey) :
    k.packetFill.packetBytes = k.packetBytes := rfl

lemma packetBytes_fillIf (b : Bool) (k : SignKey) :
    (SignKey.fillIf b k).packetBytes = k.packetBytes := by
  cases b <;> simp [SignKey.fillIf, packetBytes_packetFill]

lemma key_fillIf (b : Bool) (k : SignKey) :
    (SignKey.fillIf b k).key = k.key := by
  cases b <;> simp [SignKey.fillIf, SignKey.packetFill]

lemma keyID_congr (c : Crypto) {k1 k2 : SignKey}
    (h : k1.packetBytes = k2.packetBytes) : keyID c k1 = keyID c k2 := by
  unfold keyID; rw [h]

lemma sign_congr (c : Crypto) {k1 k2 : SignKey} (inp : SigInput)
    (hkey : k1.key = k2.key) (hid : keyID c k1 = keyID c k2) :
    sign c k1 inp = sign c k2 inp := by
  unfold sign signHashInput signHashedRegion signPacketB signHashedLen
    signPacketA signSubpackets
  rw [hkey, hid]

lemma foldl_serOne (sps : List Subpacket) (init : List Nat) :
    sps.foldl serOne init = init ++ serSubpackets sps := by
  induction sps generalizing init with
  | nil => simp [serSubpackets]
  | cons a tl ih =>
      have h2 : serSubpackets (a :: tl) = serOne [] a ++ serSubpackets tl := by
        rw [serSubpackets, List.foldl_cons, ih]
      rw [List.foldl_cons, ih, h2]
      simp [serOne]

lemma serSubpackets_cons (a : Subpacket) (tl : List Subpacket) :
    serSubpackets (a :: tl) = serOne [] a ++ serSubpackets tl := by
  rw [serSubpackets, List.foldl_cons, foldl_serOne]

lemma copyInto_salt (p salt : List Nat) (hsalt : salt.length = 8) :
    copyInto (List.replicate (8 + p.length) 0) salt =
      salt ++ List.replicate p.length 0 := by
  unfold copyInto
  rw [List.length_replicate, hsalt]
  rw [List.take_of_length_le (by omega)]
  have hmin : min (8 + p.length) 8 = 8 := by omega
  rw [hmin, List.drop_replicate]
  congr 2
  omega

lemma copyInto_pass (p : List Nat) :
    copyInto (List.replicate p.length 0) p = p := by
  unfold copyInto
  rw [List.length_replicate, min_self, List.take_length, List.drop_replicate]
  simp

lemma s2kFull_eq (p salt : List Nat) (hsalt : salt.length = 8) :
    s2kFull p salt = salt ++ p := by
  simp only [s2kFull, copyInto_salt p salt hsalt]
  rw [List.take_left' hsalt, List.drop_left' hsalt, copyInto_pass]

/-! ## Claim C2 -/

/-- C2: for every passphrase, every 8-byte salt and every encoded
count byte, the S2K key is the SHA-256 digest of exactly
`(16 + (c & 0xF)) << ((c >> 4) + 6)` bytes of the repeated sequence
`salt ++ passphrase`: `count / len` whole copies followed by a partial
copy of `count % len` bytes. -/
theorem s2k_digest_input (c : Crypto) (passphrase salt : List Nat) (cb : Nat)
    (hsalt : salt.length = 8) :
    s2k c passphrase salt (decodeS2K cb) =
      c.sha256 (List.flatten (List.replicate
          (((16 + (cb &&& 0xF)) <<< ((cb >>> 4) + 6)) / (salt ++ passphrase).length)
          (salt ++ passphrase)) ++
        (salt ++ passphrase).take
          (((16 + (cb &&& 0xF)) <<< ((cb >>> 4) + 6)) % (salt ++ passphrase).length)) := by
  have hN : ((16 + (cb &&& 0xF)) <<< ((cb >>> 4) + 6)) = decodeS2K cb := by
    rw [Nat.shiftLeft_eq, Nat.shiftRight_eq_div_pow]
    have hand : cb &&& 0xF = cb % 16 := Nat.and_pow_two_sub_one_eq_mod cb 4
    rw [hand]
    rfl
  rw [hN]
  simp only [s2k, s2kFull_eq passphrase salt hsalt]
  congr 2
  congr 1
  rw [Nat.sub_eq_iff_eq_add (Nat.div_mul_le_self _ _), Nat.mod_add_div']

/-- Witness for C2 at a concrete input (8-byte zero salt, empty
passphrase, count byte 0, so count = 1024 and the digest input is 128
whole copies of the salt). -/
theorem s2k_digest_input_witness :
    (List.replicate 8 0).length = 8 ∧
    s2k testCrypto [] (List.replicate 8 0) (decodeS2K 0) =
      testCrypto.sha256 (List.flatten (List.replicate
          (((16 + (0 &&& 0xF)) <<< ((0 >>> 4) + 6)) /
            (List.replicate 8 0 ++ []).length)
          (List.replicate 8 0 ++ [])) ++
        (List.replicate 8 0 ++ []).take
          (((16 + (0 &&& 0xF)) <<< ((0 >>> 4) + 6)) %
            (List.replicate 8 0 ++ []).length)) :=
  ⟨by decide, s2k_digest_input testCrypto [] (List.replicate 8 0) 0 (by decide)⟩

/-! ## Claim C6 (and helpers shared with C5) -/

lemma signPacketA_eq (c : Crypto) (k : SignKey) (inp : SigInput) :
    signPacketA c k inp =
      [0xc2, 0, 0x04, inp.sigtype, 22, 8, 0, 0] ++
        serSubpackets (signSubpackets c k inp) := by
  rw [signPacketA, foldl_serOne]

lemma signPacketB_eq (c : Crypto) (k : SignKey) (inp : SigInput) :
    signPacketB c k inp =
      [0xc2, 0, 0x04, inp.sigtype, 22, 8,
        signHashedLen c k inp / 256 % 256, signHashedLen c k inp % 256] ++
        serSubpackets (signSubpackets c k inp) := by
  simp only [signPacketB, signPacketA_eq]
  rfl

lemma signHashedLen_le (c : Crypto) (k : SignKey) (inp : SigInput) :
    signHashedLen c k inp ≤ (serSubpackets (signSubpackets c k inp)).length := by
  rw [signHashedLen, signPacketA_eq]
  simp only [List.length_append, List.length_cons]
  calc ([0xc2, 0, 0x04, inp.sigtype, 22, 8, 0, 0].length +
      (serSubpackets (signSubpackets c k inp)).length - 8) % 65536
      ≤ [0xc2, 0, 0x04, inp.sigtype, 22, 8, 0, 0].length +
        (serSubpackets (signSubpackets c k inp)).length - 8 := Nat.mod_le _ _
    _ = (serSubpackets (signSubpackets c k inp)).length := by simp

lemma signHashedRegion_eq (c : Crypto) (k : SignKey) (inp : SigInput) :
    signHashedRegion c k inp =
      [0x04, inp.sigtype, 22, 8,
        signHashedLen c k inp / 256 % 256, signHashedLen c k inp % 256] ++
        (serSubpackets (signSubpackets c k inp)).take (signHashedLen c k inp) := by
  simp only [signHashedRegion, signPacketB_eq]
  have h2 : ([0xc2, 0, 0x04, inp.sigtype, 22, 8,
      signHashedLen c k inp / 256 % 256, signHashedLen c k inp % 256] ++
      serSubpackets (signSubpackets c k inp)).drop 2 =
      [0x04, inp.sigtype, 22, 8,
        signHashedLen c k inp / 256 % 256, signHashedLen c k inp % 256] ++
        serSubpackets (signSubpackets c k inp) := rfl
  rw [h2, List.take_append_eq_append_take, List.take_of_length_le (by simp)]
  norm_num

lemma signHashedRegion_length (c : Crypto) (k : SignKey) (inp : SigInput) :
    (signHashedRegion c k inp).length = signHashedLen c k inp + 6 := by
  rw [signHashedRegion_eq]
  simp [List.length_take, Nat.min_eq_left (signHashedLen_le c k inp)]

/-- C6: for every signing operation, after the hashed region the final
bytes fed into the digest are the six-byte trailer
`{version 4, 0xFF, 0, 0, 0, hashedLength}` where `hashedLength` is
the byte length (mod 256) of the hashed region that was fed to the
hash — the region spanning the version, type, algorithm and length
fields plus the serialized hashed-subpacket area, as the second
conjunct makes explicit. -/
theorem sign_final_trailer (c : Crypto) (k : SignKey) (inp : SigInput) :
    signHashInput c k inp =
      inp.hWritten ++ signHashedRegion c k inp ++
        [0x04, 0xff, 0, 0, 0, (signHashedRegion c k inp).length % 256] ∧
    signHashedRegion c k inp =
      [0x04, inp.sigtype, 22, 8,
        signHashedLen c k inp / 256 % 256, signHashedLen c k inp % 256] ++
        (serSubpackets (signSubpackets c k inp)).take (signHashedLen c k inp) := by
  refine ⟨?_, signHashedRegion_eq c k inp⟩
  rw [signHashInput, signHashedRegion_length]

/-! ## Claim C5 -/

lemma drop_set_lt (l : List Nat) (i v n : Nat) (h : i < n) :
    (l.set i v).drop n = l.drop n := by
  apply List.ext_getElem?
  intro m
  rw [List.getElem?_drop, List.getElem?_drop, List.getElem?_set_ne (by omega)]

lemma sign_drop8 (c : Crypto) (k : SignKey) (inp : SigInput) :
    (sign c k inp).drop 8 =
      serSubpackets (signSubpackets c k inp) ++
        ([0, 0] ++ (c.sha256 (signHashInput c k inp)).take 2 ++
          mpi ((c.edSign k.key (c.sha256 (signHashInput c k inp))).take 32) ++
          mpi ((c.edSign k.key (c.sha256 (signHashInput c k inp))).drop 32)) := by
  rw [sign]
  rw [drop_set_lt _ _ _ _ (by omega)]
  rw [signPacketB_eq]
  simp only [List.append_assoc, List.cons_append, List.nil_append]
  rfl

/-- C5: in every signature packet the hashed-subpacket area (bytes 8
onward of the packet, for the area's length) is the serialization of
a signature-creation-time subpacket (type 2), then an issuer
subpacket (type 16) whose data is the last 8 bytes of the Key-ID,
then the caller-supplied class-specific subpackets in their given
order.  `inp` ranges over every signing operation (self-certify,
bind, certify, binary and text documents all call this engine). -/
theorem sign_hashed_area_layout (c : Crypto) (k : SignKey) (inp : SigInput)
    (hsha : ∀ x, (c.sha1 x).length = 20) :
    ((sign c k inp).drop 8).take
        (serSubpackets (signSubpackets c k inp)).length =
      serOne [] ⟨2, marshal32be (u32 inp.whenT)⟩ ++
        (serOne [] ⟨16, (keyID c k).drop ((keyID c k).length - 8)⟩ ++
          serSubpackets inp.subpackets) := by
  rw [sign_drop8, List.take_left]
  have hlen : (keyID c k).length = 20 := hsha _
  have hdata : ((keyID c k).drop 12).take 8 =
      (keyID c k).drop ((keyID c k).length - 8) := by
    rw [hlen]
    exact List.take_of_length_le (by simp [List.length_drop, hlen])
  rw [signSubpackets, serSubpackets_cons, serSubpackets_cons, hdata]

/-- Witness for C5 at a concrete signing operation (empty document
prefix, signature type 0, time 5, one caller subpacket). -/
theorem sign_hashed_area_layout_witness :
    ((sign testCrypto testKey ⟨[], 0, 5, [⟨27, [3]⟩]⟩).drop 8).take
        (serSubpackets (signSubpackets testCrypto testKey
          ⟨[], 0, 5, [⟨27, [3]⟩]⟩)).length =
      serOne [] ⟨2, marshal32be (u32 (5 : Int))⟩ ++
        (serOne [] ⟨16, (keyID testCrypto testKey).drop
            ((keyID testCrypto testKey).length - 8)⟩ ++
          serSubpackets [⟨27, [3]⟩]) :=
  sign_hashed_area_layout testCrypto testKey ⟨[], 0, 5, [⟨27, [3]⟩]⟩
    (fun x => by simp [testCrypto])

/-! ## Claim C4 -/

/-- C4 counterexample: with the seed, the key-creation timestamp and
the document bytes all fixed, two program runs still produce
different binary-document signature packets, because `SignKey.Sign`
stamps the packet with `time.Now()` — the clock readings 0 and 1
yield different bytes (already in the hashed signature-creation-time
subpacket). -/
theorem signDoc_not_reproducible_across_runs :
    SignKey.signDoc testCrypto testKey 0 [] ≠
      SignKey.signDoc testCrypto testKey 1 [] := by
  decide

/-- C4 amended: with the signing-time clock reading also fixed, the
binary-document signature packet is a function of seed, key-creation
timestamp, clock reading and document only — in particular it does
not depend on whether the lazy packet cache had been populated, so
two runs with the same inputs produce identical bytes. -/
theorem signDoc_reproducible (c : Crypto) (seed : List Nat) (created now : Int)
    (doc : List Nat) (b1 b2 : Bool) :
    SignKey.signDoc c (SignKey.fillIf b1 (SignKey.seedFrom c seed created)) now doc =
      SignKey.signDoc c (SignKey.fillIf b2 (SignKey.seedFrom c seed created)) now doc := by
  have hk : ∀ b, (SignKey.fillIf b (SignKey.seedFrom c seed created)).key =
      (SignKey.seedFrom c seed created).key := fun b => key_fillIf b _
  have hid : ∀ b, keyID c (SignKey.fillIf b (SignKey.seedFrom c seed created)) =
      keyID c (SignKey.seedFrom c seed created) :=
    fun b => keyID_congr c (packetBytes_fillIf b _)
  unfold SignKey.signDoc fingerprintSub
  rw [hid b1, hid b2]
  exact sign_congr c _ ((hk b1).trans (hk b2).symm)
    ((hid b1).trans (hid b2).symm)

/-! ## Claim C1 -/

/-- C1: the Key-ID is the SHA-1 digest of `{0x99, 0, 51}` followed by
the 51 public-key body bytes (version, creation timestamp, algorithm
22, OID length 9, the OID, the bit-length field 263, the 0x40 prefix,
the 32-byte public value); and seeding a key twice from the same seed
and creation timestamp always yields the same Key-ID, regardless of
the packet-cache state. -/
theorem keyID_spec (c : Crypto) (k : SignKey)
    (hcache : k.packet = none ∨ k.packet = some (buildPacket k))
    (hkey : k.key.length = 64) :
    keyID c k = c.sha1 ([0x99, 0, 51] ++
      ([0x04] ++ marshal32be (u32 k.created) ++ [22, 9] ++ oid ++
        [0x01, 0x07, 0x40] ++ k.pubkey)) ∧
    ∀ seed t b1 b2, keyID c (SignKey.fillIf b1 (SignKey.seedFrom c seed t)) =
      keyID c (SignKey.fillIf b2 (SignKey.seedFrom c seed t)) := by
  constructor
  · have hpb : k.packetBytes = buildPacket k := by
      rcases hcache with h | h <;> simp [SignKey.packetBytes, h]
    have hx : (buildPacket k).drop 2 =
        ([0x04] ++ marshal32be (u32 k.created) ++ [22, 9] ++ oid ++
          [0x01, 0x07, 0x40] ++ k.pubkey) ++
        ([0] ++ mpi k.seckey ++ be16 (checksum (mpi k.seckey))) := by
      simp only [buildPacket]
      rw [drop_set_lt _ _ _ _ (by omega)]
      simp only [packetHead, be16, List.append_assoc, List.cons_append,
        List.nil_append]
      norm_num
    have hXlen : ([0x04] ++ marshal32be (u32 k.created) ++ [22, 9] ++ oid ++
        [0x01, 0x07, 0x40] ++ k.pubkey).length = 51 := by
      simp [marshal32be, oid, SignKey.pubkey, hkey]
    unfold keyID
    rw [hpb, hx, List.take_left' hXlen]
  · intro seed t b1 b2
    exact keyID_congr c ((packetBytes_fillIf b1 _).trans
      (packetBytes_fillIf b2 _).symm)

/-- Witness for C1 at the concrete test key. -/
theorem keyID_spec_witness :
    testKey.key.length = 64 ∧
    keyID testCrypto testKey = testCrypto.sha1 ([0x99, 0, 51] ++
      ([0x04] ++ marshal32be (u32 testKey.created) ++ [22, 9] ++ oid ++
        [0x01, 0x07, 0x40] ++ testKey.pubkey)) :=
  ⟨by decide, (keyID_spec testCrypto testKey (Or.inl rfl) (by decide)).1⟩

/-! ## Claim C7

The input line `"-- divider"` is the byte list
`[45,45,32,100,105,118,105,100,101,114]`; its dash-escaped form
`"- -- divider"` is `[45,32,45,45,32,100,105,118,105,100,101,114]`. -/

/-- C7 counterexample: for the input line `"-- divider"` the digest
input is the un-escaped line `"-- divider"`, and the dash-escaped
line `"- -- divider"` does not occur in the digest input at all — the
hash sees the line before dash-escaping, contrary to the claim. -/
theorem clearsign_digest_not_escaped :
    clearsignDigestInput [[45,45,32,100,105,118,105,100,101,114]] =
      [45,45,32,100,105,118,105,100,101,114] ∧
    ¬ [45,32,45,45,32,100,105,118,105,100,101,114] <:+:
      clearsignDigestInput [[45,45,32,100,105,118,105,100,101,114]] := by
  decide

/-- C7 amended: clearsign on the input line `"-- divider"` emits the
passthrough line `"- -- divider"` terminated by a single linefeed,
and the digest input for that line is the whitespace-trimmed
un-escaped line `"-- divider"` (trailing spaces/tabs are removed
before both hashing and escaping, as the trailing-whitespace variant
shows). -/
theorem clearsign_dd_line :
    clearsignBody [[45,45,32,100,105,118,105,100,101,114]] =
      [45,32,45,45,32,100,105,118,105,100,101,114,10] ∧
    clearsignDigestInput [[45,45,32,100,105,118,105,100,101,114]] =
      [45,45,32,100,105,118,105,100,101,114] ∧
    clearsignDigestInput [[45,45,32,100,105,118,105,100,101,114,32,9,32]] =
      [45,45,32,100,105,118,105,100,101,114] ∧
    clearsignBody [[45,45,32,100,105,118,105,100,101,114,32,9,32]] =
      [45,32,45,45,32,100,105,118,105,100,101,114,10] := by
  decide

/-! ## Claim C9 -/

lemma loadCore_ok_pubkey (c : Crypto) (body : List Nat)
    (pass : Option (List Nat)) (out : LoadCore)
    (h : loadCore c body pass = .ok out) :
    out.pubkey = (body.drop 19).take 32 := by
  unfold loadCore at h
  repeat' split at h
  all_goals simp_all
  all_goals (cases h; rfl)

/-- C9: whenever `Load` recovers a 32-byte secret scalar from a tag-5
packet (cleartext or successfully decrypted, i.e. the seed-recovery
phase succeeds), it reconstructs the keypair from that scalar and
compares the derived public value with the one stated in the packet
(bytes 19..50 of the body, second conjunct); on mismatch it returns
the malformed-packet error instead of accepting the key. -/
theorem load_pubkey_mismatch (c : Crypto) (body : List Nat)
    (pass : Option (List Nat)) (out : LoadCore) (sk : List Nat)
    (hcore : loadCore c body pass = .ok out)
    (hsk : out.seckey = some sk)
    (hlen : sk.length = 32)
    (hmismatch : (SignKey.seedFrom c sk out.created).pubkey ≠ out.pubkey) :
    load c ⟨5, body⟩ pass = .error .invalidPacket ∧
    out.pubkey = (body.drop 19).take 32 := by
  refine ⟨?_, loadCore_ok_pubkey c body pass out hcore⟩
  unfold load
  simp only [hcore, hsk, hlen]
  simp [hmismatch]

/-- The body of a well-formed cleartext tag-5 packet whose stated
public key (32 nines) does not match the one derived from its secret
scalar (32 twos) under `testCrypto`. -/
def c9body : List Nat :=
  [4, 0, 0, 0, 0] ++ loadMagic ++ List.replicate 32 9 ++ [0] ++
    mpi (List.replicate 32 2) ++ [0, 0]

/-- Witness for C9: `Load` rejects `c9body` with the malformed-packet
error. -/
theorem load_pubkey_mismatch_witness :
    loadCore testCrypto c9body none =
      .ok ⟨some (List.replicate 32 2), List.replicate 32 9, 0⟩ ∧
    (SignKey.seedFrom testCrypto (List.replicate 32 2)
        ((0 : Int))).pubkey ≠ List.replicate 32 9 ∧
    load testCrypto ⟨5, c9body⟩ none = .error .invalidPacket :=
  ⟨by rfl, by decide,
    (load_pubkey_mismatch testCrypto c9body none
      ⟨some (List.replicate 32 2), List.replicate 32 9, 0⟩
      (List.replicate 32 2) (by rfl) (by rfl) (by decide) (by decide)).1⟩

/-! ## Claim C3 -/

lemma load_of_core_err (c : Crypto) (body : List Nat)
    (pass : Option (List Nat)) (e : PgpError)
    (h : loadCore c body pass = .error e) :
    load c ⟨5, body⟩ pass = .error e := by
  unfold load
  simp [h]

lemma loadCore_254 (c : Crypto) (body : List Nat) (pass : Option (List Nat))
    (h04 : body.getD 0 0 = 4)
    (hmagic : (body.drop 5).take 14 = loadMagic)
    (hlen : 52 ≤ body.length)
    (h254 : body.getD 51 0 = 254) :
    loadCore c body pass =
      (match pass with
        | none => .error .decryptKey
        | some pw =>
            match loadEncrypted c body pw with
            | .error e => .error e
            | .ok seckey => .ok ⟨seckey, (body.drop 19).take 32,
                Int.ofNat (beRead32 (body.drop 1))⟩) := by
  unfold loadCore
  rw [if_neg (by omega), if_neg (fun hne => hne h04), if_neg (by omega),
    if_neg (fun hne => hne hmagic), if_neg (by omega), if_neg (by omega),
    if_neg (by intro h0; rw [h0] at h254; omega), if_pos h254]

/-- C3: for a passphrase-protected secret-key packet (protection byte
254, valid static bytes), `Load` returns the decrypt-key error when
the passphrase is missing (`nil`), when the MPI decode of the
decrypted data fails (corrupted ciphertext), and when the recomputed
SHA-1 integrity digest of the decrypted scalar does not match the
stored digest (wrong passphrase or corruption) — the same single
error value in all cases, so the causes are indistinguishable. -/
theorem load_decrypt_error (c : Crypto) (body : List Nat)
    (h04 : body.getD 0 0 = 4)
    (hmagic : (body.drop 5).take 14 = loadMagic)
    (hlen : 52 ≤ body.length)
    (h254 : body.getD 51 0 = 254) :
    load c ⟨5, body⟩ none = .error .decryptKey ∧
    (∀ pw, 80 ≤ body.length → body.getD 52 0 = 9 → body.getD 53 0 = 3 →
      body.getD 54 0 = 8 →
      ((∀ sk chk, mpiDecode (loadDecrypted c body pw) 32 = (some sk, chk) →
          c.sha1 (mpi sk) ≠ chk →
          load c ⟨5, body⟩ (some pw) = .error .decryptKey) ∧
        ((mpiDecode (loadDecrypted c body pw) 32).1 = none →
          load c ⟨5, body⟩ (some pw) = .error .decryptKey))) := by
  constructor
  · exact load_of_core_err c body none .decryptKey
      (by rw [loadCore_254 c body none h04 hmagic hlen h254])
  · intro pw hlen80 h9 h3 h8
    have henc : ∀ e : PgpError,
        loadEncrypted c body pw = .error e →
        load c ⟨5, body⟩ (some pw) = .error e := by
      intro e he
      apply load_of_core_err
      rw [loadCore_254 c body (some pw) h04 hmagic hlen h254]
      simp [he]
    have hpre : loadEncrypted c body pw =
        (match mpiDecode (loadDecrypted c body pw) 32 with
          | (none, _) => .error .decryptKey
          | (some seckey, check) =>
              if c.sha1 (mpi seckey) ≠ check then .error .decryptKey
              else .ok (some seckey)) := by
      unfold loadEncrypted
      rw [if_neg (by omega), if_neg (fun hne => hne h9), if_neg (by omega),
        if_neg (fun hne => hne h3), if_neg (by omega), if_neg (fun hne => hne h8),
        if_neg (by omega), if_neg (by omega), if_neg (by omega)]
    constructor
    · intro sk chk hdec hne
      apply henc
      rw [hpre, hdec]
      simp [hne]
    · intro hdec
      apply henc
      rw [hpre]
      rcases hmp : mpiDecode (loadDecrypted c body pw) 32 with ⟨osk, chk⟩
      rw [hmp] at hdec
      simp at hdec
      subst hdec
      rfl

/-- The body of a well-formed passphrase-protected tag-5 packet whose
(identity-cipher, under `testCrypto`) ciphertext carries a scalar with
a garbage integrity digest. -/
def c3body : List Nat :=
  [4, 0, 0, 0, 0] ++ loadMagic ++ List.replicate 32 9 ++ [254, 9, 3, 8] ++
    List.replicate 8 0 ++ [0] ++ List.replicate 16 0 ++
    (mpi (List.replicate 32 2) ++ List.replicate 20 0)

/-- Witness for C3: on `c3body`, a missing passphrase and a failing
integrity digest both yield the decrypt-key error. -/
theorem load_decrypt_error_witness :
    load testCrypto ⟨5, c3body⟩ none = .error .decryptKey ∧
    mpiDecode (loadDecrypted testCrypto c3body []) 32 =
      (some (List.replicate 32 2), List.replicate 20 0) ∧
    testCrypto.sha1 (mpi (List.replicate 32 2)) ≠ List.replicate 20 0 ∧
    load testCrypto ⟨5, c3body⟩ (some []) = .error .decryptKey :=
  ⟨(load_decrypt_error testCrypto c3body (by rfl) (by rfl) (by decide) (by rfl)).1,
    by rfl, by decide,
    ((load_decrypt_error testCrypto c3body (by rfl) (by rfl) (by decide) (by rfl)).2
      [] (by decide) rfl rfl rfl).1 (List.replicate 32 2) (List.replicate 20 0)
      (by rfl) (by decide)⟩

/-! ## Claim C8 -/

/-- The exact conditions under which the Go code performs an
out-of-range index or slice access while interpreting a tag-5 body
(each disjunct corresponds to one access, in evaluation order: the
`body[0]` read, the `body[5:19]` slice, the `body[19:51]` slice or
the `body[51]` read, the `Seed(nil)` call after an MPI-decode failure
whose untouched 2-byte tail passes the checksum-length test, the
encrypted branch's `body[52..79]` accesses, and the `Seed(nil)` call
for an unrecognized protection-mode byte). -/
def loadOob (body : List Nat) (pass : Option (List Nat)) : Prop :=
  body.length = 0
  ∨ (body.getD 0 0 = 4 ∧ body.length < 19)
  ∨ (body.getD 0 0 = 4 ∧ (body.drop 5).take 14 = loadMagic ∧
      19 ≤ body.length ∧ body.length < 52)
  ∨ (body.getD 0 0 = 4 ∧ (body.drop 5).take 14 = loadMagic ∧ 52 ≤ body.length ∧
      body.getD 51 0 = 0 ∧ (mpiDecode (body.drop 52) 32).1 = none ∧
      body.length = 54)
  ∨ (body.getD 0 0 = 4 ∧ (body.drop 5).take 14 = loadMagic ∧ 52 ≤ body.length ∧
      body.getD 51 0 = 254 ∧ pass ≠ none ∧
      (body.length = 52
        ∨ (body.getD 52 0 = 9 ∧ body.length = 53)
        ∨ (body.getD 52 0 = 9 ∧ body.getD 53 0 = 3 ∧ body.length = 54)
        ∨ (body.getD 52 0 = 9 ∧ body.getD 53 0 = 3 ∧ body.getD 54 0 = 8 ∧
            55 ≤ body.length ∧ body.length < 80)))
  ∨ (body.getD 0 0 = 4 ∧ (body.drop 5).take 14 = loadMagic ∧ 52 ≤ body.length ∧
      body.getD 51 0 ≠ 0 ∧ body.getD 51 0 ≠ 254)

lemma getD_ne_zero_len {body : List Nat} (i : Nat) (h : body.getD i 0 ≠ 0) :
    i < body.length := by
  by_contra hc
  push_neg at hc
  exact h (List.getD_eq_default body 0 hc)

lemma loadCore_static (c : Crypto) (body : List Nat) (pass : Option (List Nat))
    (h04 : body.getD 0 0 = 4)
    (hmagic : (body.drop 5).take 14 = loadMagic)
    (hlen : 52 ≤ body.length) :
    loadCore c body pass =
      (if body.getD 51 0 = 0 then
        (match mpiDecode (body.drop 52) 32 with
          | (seckey, tail) =>
              if tail.length ≠ 2 then .error .invalidPacket
              else .ok ⟨seckey, (body.drop 19).take 32,
                Int.ofNat (beRead32 (body.drop 1))⟩)
      else if body.getD 51 0 = 254 then
        (match pass with
          | none => .error .decryptKey
          | some pw =>
              match loadEncrypted c body pw with
              | .error e => .error e
              | .ok seckey => .ok ⟨seckey, (body.drop 19).take 32,
                  Int.ofNat (beRead32 (body.drop 1))⟩)
      else .ok ⟨none, (body.drop 19).take 32,
          Int.ofNat (beRead32 (body.drop 1))⟩) := by
  unfold loadCore
  rw [if_neg (by omega), if_neg (fun hne => hne h04), if_neg (by omega),
    if_neg (fun hne => hne hmagic), if_neg (by omega), if_neg (by omega)]

lemma mpiDecode_fail_snd (buf : List Nat) (n : Nat) :
    (mpiDecode buf n).1 = none → (mpiDecode buf n).2 = buf := by
  unfold mpiDecode
  split
  · simp
  · dsimp only
    split <;> simp

/-- C8: for a tag-5 packet with an arbitrary (possibly truncated)
body, every condition that makes the Go code hit an out-of-range
access while interpreting the untrusted bytes yields the
malformed-packet error `InvalidPacketErr` — the `recover` handler
converts the panic, and no low-level fault escapes (the embedded
`load` is a total function into `Except PgpError SignKey`). -/
theorem load_oob_invalid (c : Crypto) (body : List Nat)
    (pass : Option (List Nat)) (h : loadOob body pass) :
    load c ⟨5, body⟩ pass = .error .invalidPacket := by
  rcases h with h0 | ⟨h04, hlt⟩ | ⟨h04, hmagic, hge, hlt⟩ |
    ⟨h04, hmagic, hlen, hz, hfail, h54⟩ | ⟨h04, hmagic, hlen, h254, hpass, hcases⟩ |
    ⟨h04, hmagic, hlen, hnz, hn254⟩
  · apply load_of_core_err
    unfold loadCore
    rw [if_pos (by omega)]
  · have h1 : 1 ≤ body.length := getD_ne_zero_len 0 (by omega)
    apply load_of_core_err
    unfold loadCore
    rw [if_neg (by omega), if_neg (fun hne => hne h04), if_pos (by omega)]
  · apply load_of_core_err
    unfold loadCore
    rw [if_neg (by omega), if_neg (fun hne => hne h04), if_neg (by omega),
      if_neg (fun hne => hne hmagic)]
    by_cases h51 : body.length < 51
    · rw [if_pos h51]
    · rw [if_neg h51, if_pos (by omega)]
  · have hcore : loadCore c body pass = .ok ⟨none, (body.drop 19).take 32,
        Int.ofNat (beRead32 (body.drop 1))⟩ := by
      rw [loadCore_static c body pass h04 hmagic hlen, if_pos hz]
      have hsnd : (mpiDecode (body.drop 52) 32).2 = body.drop 52 :=
        mpiDecode_fail_snd _ _ hfail
      have hmp : mpiDecode (body.drop 52) 32 = (none, body.drop 52) :=
        Prod.ext hfail hsnd
      rw [hmp]
      have hlen2 : (body.drop 52).length = 2 := by
        simp [List.length_drop]
        omega
      simp [hlen2]
    unfold load
    simp [hcore]
  · rcases pass with _ | pw
    · exact absurd rfl hpass
    · apply load_of_core_err
      rw [loadCore_static c body (some pw) h04 hmagic hlen,
        if_neg (by omega), if_pos h254]
      have henc : loadEncrypted c body pw = .error .invalidPacket := by
        unfold loadEncrypted
        rcases hcases with h52 | ⟨h9, h53⟩ | ⟨h9, h3, h54x⟩ | ⟨h9, h3, h8, h55, h80⟩
        · rw [if_pos (by omega)]
        · rw [if_neg (by omega), if_neg (fun hne => hne h9), if_pos (by omega)]
        · rw [if_neg (by omega), if_neg (fun hne => hne h9), if_neg (by omega),
            if_neg (fun hne => hne h3), if_pos (by omega)]
        · rw [if_neg (by omega), if_neg (fun hne => hne h9), if_neg (by omega),
            if_neg (fun hne => hne h3), if_neg (by omega),
            if_neg (fun hne => hne h8)]
          by_cases h63 : body.length < 63
          · rw [if_pos h63]
          · rw [if_neg h63]
            by_cases h64 : body.length < 64
            · rw [if_pos h64]
            · rw [if_neg h64, if_pos (by omega)]
      simp [henc]
  · have hcore : loadCore c body pass = .ok ⟨none, (body.drop 19).take 32,
        Int.ofNat (beRead32 (body.drop 1))⟩ := by
      rw [loadCore_static c body pass h04 hmagic hlen, if_neg hnz, if_neg hn254]
    unfold load
    simp [hcore]

/-- Witness for C8: the one-byte body `[4]` (truncated before the
static bytes) is rejected with the malformed-packet error. -/
theorem load_oob_invalid_witness :
    loadOob [4] none ∧
    load testCrypto ⟨5, [4]⟩ none = .error .invalidPacket :=
  ⟨by unfold loadOob; decide,
    load_oob_invalid testCrypto [4] none (by unfold loadOob; decide)⟩

/-! ## Claim C10 -/

lemma stripLeadZeros_length_le (l : List Nat) :
    (stripLeadZeros l).length ≤ l.length := by
  induction l with
  | nil => simp [stripLeadZeros]
  | cons a tl ih =>
      unfold stripLeadZeros
      split_ifs
      · simp only [List.length_cons]
        omega
      · simp

lemma mpi_length_ge (b : List Nat) : 2 ≤ (mpi b).length := by
  simp [mpi, be16]

lemma mpi_length_le (b : List Nat) : (mpi b).length ≤ 2 + b.length := by
  have := stripLeadZeros_length_le b
  simp [mpi, be16]
  omega

lemma packetHead_length (k : SignKey) (hkey : k.key.length = 64) :
    (packetHead k).length = 54 := by
  simp [packetHead, marshal32be, oid, be16, SignKey.pubkey, hkey]

lemma buildPacket_length (k : SignKey) (hkey : k.key.length = 64) :
    (buildPacket k).length = 56 + (mpi k.seckey).length := by
  simp [buildPacket, packetHead_length k hkey, be16]
  omega

lemma buildPacket_len_ge (k : SignKey) (hkey : k.key.length = 64) :
    58 ≤ (buildPacket k).length := by
  have := mpi_length_ge k.seckey
  rw [buildPacket_length k hkey]
  omega

lemma buildPacket_len_le (k : SignKey) (hkey : k.key.length = 64) :
    (buildPacket k).length ≤ 90 := by
  have h := mpi_length_le k.seckey
  have h2 : k.seckey.length ≤ 32 := by simp [SignKey.seckey]
  rw [buildPacket_length k hkey]
  omega

lemma buildPacket_getElem53 (k : SignKey) (hkey : k.key.length = 64) :
    (buildPacket k)[53]? = some 0 := by
  have hph : (packetHead k)[53]? = some 0 := by
    have hpre : ([0xc5, 0, 0x04] ++ marshal32be (u32 k.created) ++ [22, 9] ++
        oid ++ be16 263 ++ [0x40] ++ k.pubkey).length = 53 := by
      simp [marshal32be, oid, be16, SignKey.pubkey, hkey]
    calc (packetHead k)[53]?
        = (([0xc5, 0, 0x04] ++ marshal32be (u32 k.created) ++ [22, 9] ++
            oid ++ be16 263 ++ [0x40] ++ k.pubkey) ++ [0])[53]? := by
          simp [packetHead, List.append_assoc]
      _ = some 0 := by
          rw [List.getElem?_append_right (by omega), hpre]
          rfl
  unfold buildPacket
  rw [List.getElem?_set_ne (by omega)]
  rw [List.getElem?_append_left
    (by rw [List.length_append, packetHead_length k hkey]; omega)]
  rw [List.getElem?_append_left (by rw [packetHead_length k hkey]; omega)]
  exact hph

lemma stAppend_inplace (A : List Nat) (n : Nat) (xs : List Nat)
    (h : n + xs.length ≤ A.length) :
    stAppend (⟨⟨A, n⟩, A, true⟩ : SliceSt) xs =
      ⟨⟨A.take n ++ xs ++ A.drop (n + xs.length), n + xs.length⟩,
        A.take n ++ xs ++ A.drop (n + xs.length), true⟩ := by
  simp [stAppend, goAppend, h]

lemma stAppend_realloc (A O : List Nat) (n : Nat) (al : Bool) (xs : List Nat)
    (h : ¬ (n + xs.length ≤ A.length)) :
    stAppend (⟨⟨A, n⟩, O, al⟩ : SliceSt) xs =
      ⟨⟨A.take n ++ xs, n + xs.length⟩, O, false⟩ := by
  simp [stAppend, goAppend, h]

lemma inplace_length (A xs : List Nat) (n : Nat) (h : n + xs.length ≤ A.length) :
    (A.take n ++ xs ++ A.drop (n + xs.length)).length = A.length := by
  simp
  omega

lemma inplace_getElem53 (A xs : List Nat) (n : Nat) (h53 : 53 < n)
    (h : n ≤ A.length) :
    (A.take n ++ xs ++ A.drop (n + xs.length))[53]? = A[53]? := by
  rw [List.getElem?_append_left (by simp; omega),
    List.getElem?_append_left (by simp; omega),
    List.getElem?_take, if_pos h53]

/-- The in-place part of the `EncPacket` slice chain mutates position
53 (and onward) of the cached packet's backing array; the final
append outgrows the 90-byte capacity and detaches, so the backing
array is left holding the four protection-header bytes, the salt, the
count byte and the IV over the old secret portion. -/
lemma encSlices_orig53 (cached salt iv seckey : List Nat)
    (hc1 : 58 ≤ cached.length) (hc2 : cached.length ≤ 90)
    (hsalt : salt.length = 8) (hiv : iv.length = 16)
    (hsec : 22 ≤ seckey.length) :
    (encSlices cached salt iv seckey).orig[53]? = some 254 ∧
    90 ≤ (encSlices cached salt iv seckey).orig.length := by
  have hBlen : (cached ++ List.replicate (90 - cached.length) 0).length = 90 := by
    simp
    omega
  simp only [encSlices]
  set B := cached ++ List.replicate (90 - cached.length) 0 with hB
  set B4 := (((B.set 53 254).set 54 9).set 55 3).set 56 8 with hB4
  have hB4len : B4.length = 90 := by simp [hB4, hBlen]
  have ht4 : stSet (stSet (stSet (stSet (⟨⟨B, 57⟩, B, true⟩ : SliceSt) 53 254)
      54 9) 55 3) 56 8 = ⟨⟨B4, 57⟩, B4, true⟩ := rfl
  rw [ht4]
  rw [stAppend_inplace B4 57 salt (by omega)]
  set A5 := B4.take 57 ++ salt ++ B4.drop (57 + salt.length) with hA5
  have hA5len : A5.length = 90 := by
    rw [hA5, inplace_length B4 salt 57 (by omega), hB4len]
  rw [stAppend_inplace A5 (57 + salt.length) [0xff] (by simp [hA5len, hsalt])]
  set A6 := A5.take (57 + salt.length) ++ [0xff] ++
    A5.drop (57 + salt.length + [0xff].length) with hA6
  have hA6len : A6.length = 90 := by
    rw [hA6, inplace_length A5 [0xff] (57 + salt.length)
      (by simp [hA5len, hsalt]), hA5len]
  rw [stAppend_inplace A6 (57 + salt.length + [0xff].length) iv
    (by simp [hA6len, hsalt, hiv])]
  set A7 := A6.take (57 + salt.length + [0xff].length) ++ iv ++
    A6.drop (57 + salt.length + [0xff].length + iv.length) with hA7
  have hA7len : A7.length = 90 := by
    rw [hA7, inplace_length A6 iv (57 + salt.length + [0xff].length)
      (by simp [hA6len, hsalt, hiv]), hA6len]
  rw [stAppend_realloc A7 A7 (57 + salt.length + [0xff].length + iv.length)
    true seckey (by simp [hA7len, hsalt, hiv]; omega)]
  have hfin : (stSet (⟨⟨A7.take (57 + salt.length + [0xff].length + iv.length) ++
      seckey, 57 + salt.length + [0xff].length + iv.length + seckey.length⟩,
      A7, false⟩ : SliceSt) 1
      ((57 + salt.length + [0xff].length + iv.length + seckey.length - 2) % 256)).orig
      = A7 := rfl
  rw [hfin]
  constructor
  · rw [hA7, inplace_getElem53 A6 iv _ (by simp [hsalt]) (by simp [hA6len, hsalt])]
    rw [hA6, inplace_getElem53 A5 [0xff] _ (by simp [hsalt]) (by simp [hA5len, hsalt])]
    rw [hA5, inplace_getElem53 B4 salt _ (by omega) (by omega)]
    rw [hB4]
    rw [List.getElem?_set_ne (by omega), List.getElem?_set_ne (by omega),
      List.getElem?_set_ne (by omega)]
    rw [List.getElem?_set_eq_of_lt 254 (by omega)]
  · rw [hA7len]

/-- C10 counterexample: with the packet cache populated, calling
`EncPacket` changes the bytes a subsequent `Packet()` call returns —
the slice writes go through the cached packet's backing array. -/
theorem encPacket_changes_packet :
    (encPacket testCrypto testKey.packetFill (List.replicate 8 7)
        (List.replicate 16 9) []).2.packetBytes ≠
      testKey.packetFill.packetBytes := by
  decide

/-- C10 amended: for every key with a populated (valid) packet cache,
any 8-byte salt, 16-byte IV and any passphrase, `EncPacket` mutates
the cached packet in place: a subsequent `Packet()` call returns
bytes whose protection-mode byte 53 has become 254 (it was 0), so the
result differs from the pre-`EncPacket` packet. -/
theorem encPacket_cache_mutation (c : Crypto) (k : SignKey)
    (salt iv pass : List Nat)
    (hcache : k.packet = some (buildPacket k))
    (hkey : k.key.length = 64)
    (hsalt : salt.length = 8) (hiv : iv.length = 16)
    (hsha1 : ∀ x, (c.sha1 x).length = 20)
    (henc : ∀ a b d, (c.cfbEnc a b d).length = d.length) :
    (encPacket c k salt iv pass).2.packetBytes[53]? = some 254 ∧
    k.packetBytes[53]? = some 0 ∧
    (encPacket c k salt iv pass).2.packetBytes ≠ k.packetBytes := by
  have hpb : k.packetBytes = buildPacket k := by
    simp [SignKey.packetBytes, hcache]
  have hc1 : 58 ≤ k.packetBytes.length := by
    rw [hpb]
    exact buildPacket_len_ge k hkey
  have hc2 : k.packetBytes.length ≤ 90 := by
    rw [hpb]
    exact buildPacket_len_le k hkey
  have hsec : 22 ≤ (encSeckey c k (s2k c pass salt (decodeS2K 0xff)) iv).length := by
    have := mpi_length_ge k.seckey
    simp [encSeckey, henc, hsha1]
    omega
  have hnew : (encPacket c k salt iv pass).2.packetBytes =
      (encSlices k.packetBytes salt iv
        (encSeckey c k (s2k c pass salt (decodeS2K 0xff)) iv)).orig.take
        k.packetBytes.length := rfl
  obtain ⟨h53, hlen⟩ := encSlices_orig53 k.packetBytes salt iv
    (encSeckey c k (s2k c pass salt (decodeS2K 0xff)) iv)
    hc1 hc2 hsalt hiv hsec
  have hnew53 : (encPacket c k salt iv pass).2.packetBytes[53]? = some 254 := by
    rw [hnew, List.getElem?_take, if_pos (by omega), h53]
  have hold53 : k.packetBytes[53]? = some 0 := by
    rw [hpb]
    exact buildPacket_getElem53 k hkey
  refine ⟨hnew53, hold53, fun heq => ?_⟩
  rw [heq, hold53] at hnew53
  exact absurd hnew53 (by simp)

/-- Witness for C10's amended theorem at the concrete test key. -/
theorem encPacket_cache_mutation_witness :
    testKey.packetFill.packet = some (buildPacket testKey.packetFill) ∧
    (encPacket testCrypto testKey.packetFill (List.replicate 8 7)
        (List.replicate 16 9) []).2.packetBytes[53]? = some 254 :=
  ⟨by rfl,
    (encPacket_cache_mutation testCrypto testKey.packetFill (List.replicate 8 7)
      (List.replicate 16 9) [] (by rfl) (by decide) (by decide) (by decide)
      (fun x => by simp [testCrypto])
      (fun a b d => by simp [testCrypto])).1⟩

end P2P
